import Mathlib

/-!
Shallow embedding of the contact-recorder-backend transcription pipeline.

The repository has two Python entry points:
* `transcription_service.py` — `transcribe_audio_with_diarization` (and the
  delegating `transcribe_audio`), which always attempts diarization and, in
  its diarized branch, merges consecutive same-speaker segments into
  utterances while building a `[speaker]:`-labeled full text.
* `whisperx_service.py` — `transcribe_with_speaker_diarization`, which
  performs diarization only when an HF token is supplied, derives seller and
  client roles from the sorted list of distinct speaker ids, builds a plain
  concatenated text, and renders a role-labeled dialogue via
  `format_dialogue`.

Python strings are embedded as `List Char`; `str.strip()` becomes `strip`;
the external ML collaborators (model loading, transcription, alignment,
diarization plus word-speaker assignment) are oracles whose observed
outcome for the single call the pipeline makes is an `Except` value in an
environment record.  A raised exception is the `.error` case and flows
through the same `try`/`finally`/`except` structure as in the source.  The
transient temp file of the audio data is tracked by an `FS` record:
created before the inner `try`, unlinked in the `finally` on every path.
-/

/-- Python strings, embedded as their character sequences. -/
abbrev Str := List Char

/-- Whitespace test used by Python's `str.strip()`. -/
def isWS (c : Char) : Bool := c.isWhitespace

/-- Python `s.strip()`: drop leading and trailing whitespace. -/
def strip (s : Str) : Str := ((s.dropWhile isWS).reverse.dropWhile isWS).reverse

/-- All non-whitespace characters of a string, in order.  Used to state
"concatenation ignoring separators". -/
def removeWS (s : Str) : Str := s.filter (fun c => !isWS c)

/-- Python's lexicographic `<` on strings (code-point order, shorter
prefix first), as used by `sorted()`. -/
def lexLt : Str → Str → Bool
  | _, [] => false
  | [], _ :: _ => true
  | a :: as, b :: bs => if a < b then true else if b < a then false else lexLt as bs

/-- The `≤` relation induced by `lexLt`. -/
def strLe (a b : Str) : Prop := lexLt b a = false

instance : DecidableRel strLe := fun a b => inferInstanceAs (Decidable (lexLt b a = false))

/-- Python `sorted()` on a list of strings. -/
def sortStrs (l : List Str) : List Str := List.insertionSort strLe l

/-- A transcription segment as the services consume it: the optional
`speaker` key, the `text`, and the `start`/`end` times (the `end` key is
named `stop` here because `end` is reserved in Lean).  The times are only
copied and compared, never computed with, so they are embedded as `Int`. -/
structure Segment where
  speaker : Option Str
  text : Str
  start : Int
  stop : Int
deriving DecidableEq

/-- File-system view of the single managed resource: the temporary on-disk
copy of the audio data. -/
structure FS where
  tempCreated : Bool
  tempExists : Bool
deriving DecidableEq

/-- `os.unlink(temp_path)` (the `finally` block swallows unlink errors; the
idealized file system here always succeeds in removing the file). -/
def FS.unlink (fs : FS) : FS := { fs with tempExists := false }

namespace TS

/-- Default speaker label `transcription_service.py` uses for a segment
without a `speaker` key (`segment.get("speaker", "НЕИЗВЕСТНЫЙ")`). -/
def unknownSpeaker : Str := "НЕИЗВЕСТНЫЙ".toList

/-- A merged run of consecutive same-speaker segments, as appended to
`segments_with_speakers` in the diarized branch. -/
structure Utterance where
  speaker : Str
  text : Str
  start : Int
  stop : Int
deriving DecidableEq

/-- The "save previous segment" step (lines 132–140 / 148–156): emit the
accumulator if `current_speaker is not None and current_text`. -/
def flushAcc (cs : Option Str) (ct : Str) (ss se : Int) (acc : List Utterance) :
    List Utterance :=
  match cs with
  | some sp => if ct ≠ [] then acc ++ [⟨sp, strip ct, ss, se⟩] else acc
  | none => acc

/-- The grouping loop over `result["segments"]` (lines 119–156): group
consecutive segments of one speaker, appending `" " + text` to the
accumulator on a same-speaker segment and flushing on a speaker change. -/
def mergeLoop : List Segment → Option Str → Str → Int → Int → List Utterance →
    List Utterance
  | [], cs, ct, ss, se, acc => flushAcc cs ct ss se acc
  | seg :: rest, cs, ct, ss, se, acc =>
    let speaker := seg.speaker.getD unknownSpeaker
    let text := strip seg.text
    if some speaker = cs then
      mergeLoop rest cs (ct ++ ' ' :: text) ss seg.stop acc
    else
      mergeLoop rest (some speaker) text seg.start seg.stop (flushAcc cs ct ss se acc)

/-- The Segment Merger of `transcription_service.py`: the grouping loop
started from `current_speaker = None`, `current_text = ""`,
`segment_start = segment_end = 0`. -/
def mergeSegments (segs : List Segment) : List Utterance :=
  mergeLoop segs none [] 0 0 []

/-- One `full_text += f"\n[{current_speaker}]: {current_text.strip()}"`
contribution; the flushed utterance text is exactly the stripped
accumulator. -/
def labelLine (u : Utterance) : Str :=
  ("\n[".toList) ++ u.speaker ++ ("]: ".toList) ++ u.text

/-- The diarized branch's `full_text` (one labeled line per emitted
utterance, stripped at the end). -/
def labeledText (us : List Utterance) : Str := strip ((us.map labelLine).flatten)

/-- `speakers_list = sorted(list(speakers))` where `speakers` collects the
(defaulted) speaker of every segment of the loop. -/
def speakerNames (segs : List Segment) : List Str :=
  sortStrs ((segs.map (fun s => s.speaker.getD unknownSpeaker)).dedup)

/-- The result dict of `transcribe_audio_with_diarization` (the
`error_type` key, a Python exception class name, is not modeled).  Absent
keys are `none`. -/
structure TResult where
  success : Bool
  text : Str
  segments : List Utterance
  speakers : List Str
  speaker_count : Nat
  language : Option Str
  error : Option Str
  warning : Option Str
  step : Option Str
deriving DecidableEq

/-- Observed outcomes of the single call the pipeline makes to each
external collaborator; `.error` is a raised exception (carrying `str(e)`).
`diarize`'s payload is the truthiness of `diarize_segments`; `assign`'s
payload is `result["segments"]` after `assign_word_speakers`. -/
structure TEnv where
  loadModel : Except Str Unit
  loadAudio : Except Str Unit
  transcribe : Except Str (List Segment)
  align : Except Str (List Segment)
  diarize : Except Str Bool
  assign : Except Str (List Segment)

/-- The early `return` of lines 95–104 when the diarization pipeline
raises: a failed result with `step = "diarization"`. -/
def diarizeFailResult (e : Str) : TResult :=
  { success := false, text := [], segments := [], speakers := [], speaker_count := 0,
    language := none, error := some (("Ошибка диаризации: ".toList) ++ e),
    warning := none, step := some ("diarization".toList) }

/-- The outer `except` result of lines 208–216. -/
def failT (e : Str) : TResult :=
  { success := false, text := [], segments := [], speakers := [], speaker_count := 0,
    language := none, error := some e, warning := none, step := none }

/-- The "с диаризацией" success result of lines 166–174. -/
def diarizedResult (segs2 : List Segment) (language : Str) : TResult :=
  let utts := mergeSegments segs2
  { success := true, text := labeledText utts, segments := utts,
    speakers := speakerNames segs2, speaker_count := (speakerNames segs2).length,
    language := some language, error := none, warning := none, step := none }

/-- The "без диаризации" fallback result of lines 186–195: raw segment
texts concatenated and stripped, with a warning note. -/
def plainResult (segs2 : List Segment) (language : Str) : TResult :=
  { success := true, text := strip ((segs2.map Segment.text).flatten), segments := [],
    speakers := [], speaker_count := 0, language := some language, error := none,
    warning := some ("Диаризация не удалась, возвращен обычный текст".toList),
    step := none }

/-- The body of the inner `try` (lines 42–195): a raised exception is
`.error`; the diarization failure's early `return` is an `.ok` failed
dict; alignment and speaker-assignment failures are swallowed in place. -/
def innerT (env : TEnv) (language : Str) : Except Str TResult :=
  match env.loadModel with
  | .error e => .error e
  | .ok _ =>
  match env.loadAudio with
  | .error e => .error e
  | .ok _ =>
  match env.transcribe with
  | .error e => .error e
  | .ok segs0 =>
    let segs1 := match env.align with
      | .ok s => s
      | .error _ => segs0
    match env.diarize with
    | .error e => .ok (diarizeFailResult e)
    | .ok diar =>
      let segs2 := match env.assign with
        | .ok s => s
        | .error _ => segs1
      if diar then .ok (diarizedResult segs2 language)
      else .ok (plainResult segs2 language)

/-- `transcribe_audio_with_diarization`: create the temp file, run the
inner try, unlink in the `finally` (also on the early return and before an
exception reaches the outer `except`), and catch any escaped exception. -/
def transcribe_audio_with_diarization (env : TEnv) (language : Str) : TResult × FS :=
  let fs0 : FS := { tempCreated := true, tempExists := true }
  let r := innerT env language
  let fs1 := fs0.unlink
  match r with
  | .ok res => (res, fs1)
  | .error e => (failT e, fs1)

/-- `transcribe_audio` (lines 218–222): backward compatibility, delegates
to `transcribe_audio_with_diarization`. -/
def transcribe_audio (env : TEnv) (language : Str) : TResult × FS :=
  transcribe_audio_with_diarization env language

end TS

namespace WX

/-- The `speakers_info` dict of `whisperx_service.py`, which takes exactly
four shapes: `{}` (left untouched when diarization found no speakers),
the role dict of lines 183–196, the no-token note of lines 203–205, and
the caught-exception dict of lines 209–211.  `seller`/`client` are the
`.get` lookups (absent key ⇒ `none`). -/
inductive SpeakersInfo where
  | empty : SpeakersInfo
  | roles (seller : Str) (client : Option Str) (total_speakers : Nat)
      (all_speakers : List Str) (note : Option Str) : SpeakersInfo
  | noteOnly (note : Str) : SpeakersInfo
  | errorOnly (err : Str) : SpeakersInfo
deriving DecidableEq

/-- `speakers_info.get("seller")`. -/
def SpeakersInfo.seller : SpeakersInfo → Option Str
  | .roles s _ _ _ _ => some s
  | _ => none

/-- `speakers_info.get("client")`. -/
def SpeakersInfo.client : SpeakersInfo → Option Str
  | .roles _ c _ _ _ => c
  | _ => none

/-- Role label "Продавец". -/
def sellerRoleName : Str := "Продавец".toList

/-- Role label "Клиент". -/
def clientRoleName : Str := "Клиент".toList

/-- Role label "Неизвестный". -/
def unknownRoleName : Str := "Неизвестный".toList

/-- The role resolution of `format_dialogue` lines 57–65.  Note the Python
comparisons: an unset speaker (`None`) compares equal to an absent seller
or client id (`None`), and `elif speaker:` is string truthiness. -/
def roleOf (sellerId clientId : Option Str) (speaker : Option Str) : Str :=
  if speaker = sellerId then sellerRoleName
  else if speaker = clientId then clientRoleName
  else match speaker with
    | some s => if s ≠ [] then ("Спикер ".toList) ++ s else unknownRoleName
    | none => unknownRoleName

/-- The loop of `format_dialogue` lines 50–78, including the final flush:
segments with empty stripped text are skipped; a change of resolved role
(with a truthy current speaker and non-empty accumulator) flushes a
`"role: text"` line; the text is accumulated as `current_text += " " + text`. -/
def fdLoop (sellerId clientId : Option Str) :
    List Segment → Option Str → Str → List Str → List Str
  | [], cs, ct, lines =>
    match cs with
    | some sp => if sp ≠ [] ∧ ct ≠ [] then lines ++ [sp ++ (": ".toList) ++ strip ct]
                 else lines
    | none => lines
  | seg :: rest, cs, ct, lines =>
    let text := strip seg.text
    if text = [] then fdLoop sellerId clientId rest cs ct lines
    else
      let role := roleOf sellerId clientId seg.speaker
      match cs with
      | some sp =>
        if sp ≠ [] ∧ sp ≠ role ∧ ct ≠ [] then
          fdLoop sellerId clientId rest (some role) (' ' :: text)
            (lines ++ [sp ++ (": ".toList) ++ strip ct])
        else
          fdLoop sellerId clientId rest (some role) (ct ++ ' ' :: text) lines
      | none => fdLoop sellerId clientId rest (some role) (ct ++ ' ' :: text) lines

/-- Python `sep.join(lines)`. -/
def joinSep (sep : Str) : List Str → Str
  | [] => []
  | [x] => x
  | x :: y :: xs => x ++ sep ++ joinSep sep (y :: xs)

/-- `format_dialogue(segments, speakers_info)` (lines 28–80): empty output
when the segment list or the `speakers_info` dict is falsy, otherwise the
dialogue lines joined by a blank line. -/
def format_dialogue (segments : List Segment) (speakers_info : SpeakersInfo) : Str :=
  if segments = [] ∨ speakers_info = SpeakersInfo.empty then []
  else joinSep ("\n\n".toList)
    (fdLoop speakers_info.seller speakers_info.client segments none [] [])

/-- The speaker-id analysis of lines 173–196: collect the ids of segments
carrying a `speaker` key, sort the distinct ids, and pick roles from the
sorted list ( `speakers_list[0]` is the seller, `speakers_list[1]` the
client); no speakers leaves the dict `{}`. -/
def analyzeSpeakers (segs : List Segment) : SpeakersInfo :=
  match sortStrs ((segs.filterMap Segment.speaker).dedup) with
  | a :: b :: rest => .roles a (some b) (a :: b :: rest).length (a :: b :: rest) none
  | [a] => .roles a none 1 [a] (some ("Обнаружен только один спикер".toList))
  | [] => .empty

/-- The result-collection loop of lines 218–230: `full_text` accumulates
every stripped segment text plus a space; `seller_text`/`client_text`
accumulate texts of segments whose speaker equals the respective
`speakers_info.get` value (Python `==`, so `None` matches an absent id);
all three are stripped at the end. -/
def textsLoop (sellerId clientId : Option Str) :
    List Segment → Str → Str → Str → Str × Str × Str
  | [], f, s, c => (strip f, strip s, strip c)
  | seg :: rest, f, s, c =>
    let text := strip seg.text
    if seg.speaker = sellerId then
      textsLoop sellerId clientId rest (f ++ text ++ [' ']) (s ++ text ++ [' ']) c
    else if seg.speaker = clientId then
      textsLoop sellerId clientId rest (f ++ text ++ [' ']) s (c ++ text ++ [' '])
    else
      textsLoop sellerId clientId rest (f ++ text ++ [' ']) s c

/-- The plain full text the collection loop produces: stripped segment
texts, each followed by one space, concatenated and stripped — no speaker
labels. -/
def fullTextOf (segs : List Segment) : Str :=
  strip ((segs.map (fun s => strip s.text ++ [' '])).flatten)

/-- The result dict of `transcribe_with_speaker_diarization` (the `device`
key, a hardware tag, is not modeled).  Absent keys are `none`. -/
structure WResult where
  success : Bool
  text : Str
  dialogue : Str
  seller_text : Str
  client_text : Str
  speakers : SpeakersInfo
  segments : List Segment
  language : Option Str
  model_used : Option Str
  error : Option Str
deriving DecidableEq

/-- Observed outcomes of the external calls of `whisperx_service.py`.
`diarizeAssign` is the combined diarize-plus-`assign_word_speakers` step
(one `try` in the source); its payload is `result["segments"]` after
assignment. -/
structure WEnv where
  loadModel : Except Str Unit
  transcribe : Except Str (List Segment)
  align : Except Str (List Segment)
  diarizeAssign : Except Str (List Segment)

/-- The outer `except` result of lines 264–273. -/
def failW (e : Str) : WResult :=
  { success := false, text := [], dialogue := [], seller_text := [], client_text := [],
    speakers := .empty, segments := [], language := none, model_used := none,
    error := some e }

/-- The body of the inner `try` of `transcribe_with_speaker_diarization`
(lines 115–252).  The alignment call is NOT wrapped in its own
`try`/`except`, so its exception propagates; the diarization block has its
own `except` that downgrades a failure to an error note in
`speakers_info`; without a token, diarization is skipped with a note. -/
def innerW (env : WEnv) (hf_token : Option Str) (language model_size : Str) :
    Except Str WResult :=
  match env.loadModel with
  | .error e => .error e
  | .ok _ =>
  match env.transcribe with
  | .error e => .error e
  | .ok _ =>
  match env.align with
  | .error e => .error e
  | .ok segs1 =>
    let info_segs :=
      match hf_token with
      | some _ =>
        match env.diarizeAssign with
        | .ok sgs => (analyzeSpeakers sgs, sgs)
        | .error e => (SpeakersInfo.errorOnly (("Диаризация не удалась: ".toList) ++ e),
                       segs1)
      | none => (SpeakersInfo.noteOnly ("Диаризация недоступна без HuggingFace токена".toList),
                 segs1)
    let speakers_info := info_segs.1
    let segs2 := info_segs.2
    let t3 := textsLoop speakers_info.seller speakers_info.client segs2 [] [] []
    .ok { success := true, text := t3.1, dialogue := format_dialogue segs2 speakers_info,
          seller_text := t3.2.1, client_text := t3.2.2, speakers := speakers_info,
          segments := segs2, language := some language,
          model_used := some (("whisperx-".toList) ++ model_size), error := none }

/-- `transcribe_with_speaker_diarization`: temp file, inner try, `finally`
unlink on every path, outer `except`. -/
def transcribe_with_speaker_diarization (env : WEnv) (hf_token : Option Str)
    (language model_size : Str) : WResult × FS :=
  let fs0 : FS := { tempCreated := true, tempExists := true }
  let r := innerW env hf_token language model_size
  let fs1 := fs0.unlink
  match r with
  | .ok res => (res, fs1)
  | .error e => (failW e, fs1)

end WX

/-! Auxiliary notions for the statements and proofs. -/

/-- Reinterpret an emitted utterance as a single-speaker segment (used to
feed the Segment Merger its own output). -/
def uttSeg (u : TS.Utterance) : Segment :=
  { speaker := some u.speaker, text := u.text, start := u.start, stop := u.stop }

/-- The segment sequence has non-decreasing start times. -/
def startsMono : List Segment → Bool
  | a :: b :: rest => decide (a.start ≤ b.start) && startsMono (b :: rest)
  | _ => true

/-- Concatenation of the texts of a list of utterances. -/
def concatTexts (us : List TS.Utterance) : Str := (us.map TS.Utterance.text).flatten

/-- The distinct-speaker source list of the whisperx role analysis: the
speaker ids of the segments that carry one, in order of appearance. -/
def observedIds (segs : List Segment) : List Str := segs.filterMap Segment.speaker

/-- A string whose first and last characters (when present) are not
whitespace; such a string is a fixed point of `strip`. -/
def okEnds (s : Str) : Prop :=
  (∀ c, s.head? = some c → isWS c = false) ∧ (∀ c, s.getLast? = some c → isWS c = false)

/-- Adjacent utterances have distinct speakers. -/
def AdjDiff : List TS.Utterance → Prop
  | u :: v :: rest => u.speaker ≠ v.speaker ∧ AdjDiff (v :: rest)
  | _ => True

/-- Every utterance of the list has a non-empty text that `strip` leaves
unchanged. -/
def GoodTexts (us : List TS.Utterance) : Prop :=
  ∀ u ∈ us, u.text ≠ [] ∧ okEnds u.text

/-- The invariant tying the merge loop's accumulator state together: before
the first segment the accumulator is empty; afterwards the pending text is
non-empty with clean ends and the last emitted utterance has a different
speaker than the pending one. -/
def mergeInv : Option Str → Str → List TS.Utterance → Prop
  | none, ct, acc => ct = [] ∧ acc = []
  | some sp, ct, acc => ct ≠ [] ∧ okEnds ct ∧ ∀ u, acc.getLast? = some u → u.speaker ≠ sp

/-! Concrete inputs used by counterexamples and witnesses. -/

/-- Segment: speaker A says "x" on [0, 1]. -/
def segA1 : Segment := { speaker := some ("A".toList), text := "x".toList, start := 0, stop := 1 }

/-- Segment: speaker B with empty text on [1, 2]. -/
def segB0 : Segment := { speaker := some ("B".toList), text := [], start := 1, stop := 2 }

/-- Segment: speaker A says "y" on [2, 3]. -/
def segA2 : Segment := { speaker := some ("A".toList), text := "y".toList, start := 2, stop := 3 }

/-- Segment: speaker A with empty text on [1, 5]. -/
def segA0w : Segment := { speaker := some ("A".toList), text := [], start := 1, stop := 5 }

/-- Segment: no speaker key, text "Hello". -/
def segHello : Segment := { speaker := none, text := "Hello".toList, start := 0, stop := 1 }

/-- Segment: speaker S says "Hi". -/
def segS1Hi : Segment := { speaker := some ("S".toList), text := "Hi".toList, start := 0, stop := 1 }

/-- Segment: speaker B speaks first. -/
def segBfirst : Segment := { speaker := some ("B".toList), text := "x".toList, start := 0, stop := 1 }

/-- Segment: speaker A speaks second. -/
def segAsecond : Segment := { speaker := some ("A".toList), text := "y".toList, start := 1, stop := 2 }

/-- Scenario A segments of the spec (speaker S1 twice, then S2). -/
def scenarioA : List Segment :=
  [ { speaker := some ("S1".toList), text := "Hello".toList, start := 0, stop := 1 },
    { speaker := some ("S1".toList), text := " there".toList, start := 1, stop := 2 },
    { speaker := some ("S2".toList), text := "Hi".toList, start := 2, stop := 3 } ]

/-- Environment: transcription fine, diarization pipeline raises, for
`transcription_service.py`. -/
def envT1 : TS.TEnv :=
  { loadModel := .ok (), loadAudio := .ok (), transcribe := .ok [segS1Hi],
    align := .ok [segS1Hi], diarize := .error ("boom".toList), assign := .ok [] }

/-- Environment: everything succeeds with one diarized segment, for
`transcription_service.py`. -/
def envT3 : TS.TEnv :=
  { loadModel := .ok (), loadAudio := .ok (), transcribe := .ok [segS1Hi],
    align := .ok [segS1Hi], diarize := .ok true, assign := .ok [segS1Hi] }

/-- Environment: transcription fine, alignment fails (raises), for
`transcription_service.py`. -/
def envT2 : TS.TEnv :=
  { loadModel := .ok (), loadAudio := .ok (), transcribe := .ok [segS1Hi],
    align := .error ("align failed".toList), diarize := .ok false, assign := .ok [] }

/-- Environment: transcription and alignment fine, diarize-and-assign
raises, for `whisperx_service.py`. -/
def envW1 : WX.WEnv :=
  { loadModel := .ok (), transcribe := .ok [segS1Hi], align := .ok [segS1Hi],
    diarizeAssign := .error ("boom".toList) }

/-- Environment: transcription fine, alignment raises, for
`whisperx_service.py`. -/
def envW2 : WX.WEnv :=
  { loadModel := .ok (), transcribe := .ok [segS1Hi], align := .error ("align failed".toList),
    diarizeAssign := .ok [] }

/-- Environment: transcription and alignment fine with one unassigned
segment, for `whisperx_service.py`. -/
def envW4 : WX.WEnv :=
  { loadModel := .ok (), transcribe := .ok [segHello], align := .ok [segHello],
    diarizeAssign := .ok [] }

/-! Theorems.  First, facts about `strip` and `removeWS`. -/

theorem removeWS_append (a b : Str) : removeWS (a ++ b) = removeWS a ++ removeWS b := by
  simp [removeWS, List.filter_append]

theorem filter_dropWhile {p q : Char → Bool} (h : ∀ c, q c = true → p c = false) :
    ∀ s : Str, (s.dropWhile q).filter p = s.filter p := by
  intro s
  induction s with
  | nil => rfl
  | cons c t ih =>
    by_cases hq : q c
    · simp [List.dropWhile_cons, hq, List.filter_cons, h c hq, ih]
    · simp [List.dropWhile_cons, hq]

theorem removeWS_reverse (s : Str) : removeWS s.reverse = (removeWS s).reverse := by
  simp [removeWS, List.filter_reverse]

theorem removeWS_strip (s : Str) : removeWS (strip s) = removeWS s := by
  have hpq : ∀ c, isWS c = true → (!isWS c) = false := by
    intro c hc; rw [hc]; rfl
  show ((((s.dropWhile isWS).reverse.dropWhile isWS).reverse).filter _) = _
  rw [show (((s.dropWhile isWS).reverse.dropWhile isWS).reverse).filter (fun c => !isWS c)
        = removeWS ((s.dropWhile isWS).reverse.dropWhile isWS).reverse from rfl]
  rw [removeWS_reverse]
  rw [show removeWS ((s.dropWhile isWS).reverse.dropWhile isWS)
        = ((s.dropWhile isWS).reverse.dropWhile isWS).filter (fun c => !isWS c) from rfl]
  rw [filter_dropWhile hpq]
  rw [show (s.dropWhile isWS).reverse.filter (fun c => !isWS c)
        = removeWS (s.dropWhile isWS).reverse from rfl]
  rw [removeWS_reverse, List.reverse_reverse]
  rw [show removeWS (s.dropWhile isWS) = (s.dropWhile isWS).filter (fun c => !isWS c) from rfl]
  rw [filter_dropWhile hpq]
  rfl

theorem removeWS_space_cons (s : Str) : removeWS (' ' :: s) = removeWS s := by
  have h : isWS ' ' = true := by decide
  simp [removeWS, List.filter_cons, h]

theorem head?_append_left {α : Type} (a b : List α) (h : a ≠ []) :
    (a ++ b).head? = a.head? := by
  cases a with
  | nil => exact absurd rfl h
  | cons x t => rfl

theorem getLast?_append_right {α : Type} (a b : List α) (h : b ≠ []) :
    (a ++ b).getLast? = b.getLast? := by
  have h1 : (a ++ b).getLast? = (a ++ b).reverse.head? := by
    rw [List.head?_reverse]
  rw [h1, List.reverse_append, head?_append_left _ _ (by simpa using h), List.head?_reverse]

theorem dropWhile_eq_self_of_head {p : Char → Bool} (s : Str)
    (h : ∀ c, s.head? = some c → p c = false) : s.dropWhile p = s := by
  cases s with
  | nil => rfl
  | cons c t => simp [List.dropWhile_cons, h c rfl]

theorem head_dropWhile {p : Char → Bool} (s : Str) :
    ∀ c, (s.dropWhile p).head? = some c → p c = false := by
  induction s with
  | nil => intro c h; simp at h
  | cons x t ih =>
    intro c h
    by_cases hx : p x
    · rw [List.dropWhile_cons] at h
      simp only [hx, if_true] at h
      exact ih c h
    · rw [List.dropWhile_cons] at h
      simp only [hx, if_false, Bool.false_eq_true] at h
      simp only [List.head?_cons, Option.some.injEq] at h
      rw [← h]; simpa using hx

theorem getLast?_dropWhile {p : Char → Bool} (s : Str) (h : s.dropWhile p ≠ []) :
    (s.dropWhile p).getLast? = s.getLast? := by
  induction s with
  | nil => simp at h
  | cons x t ih =>
    by_cases hx : p x
    · rw [List.dropWhile_cons] at h ⊢
      simp only [hx, if_true] at h ⊢
      rw [ih h]
      cases t with
      | nil => simp at h
      | cons y u => rw [List.getLast?_cons_cons]
    · rw [List.dropWhile_cons]
      simp [hx]

theorem strip_eq_self_of_okEnds {s : Str} (h : okEnds s) : strip s = s := by
  show ((s.dropWhile isWS).reverse.dropWhile isWS).reverse = s
  rw [dropWhile_eq_self_of_head s h.1]
  rw [dropWhile_eq_self_of_head s.reverse ?hlast, List.reverse_reverse]
  case hlast =>
    intro c hc
    rw [List.head?_reverse] at hc
    exact h.2 c hc

theorem getLast?_reverse_eq {α : Type} (l : List α) : l.reverse.getLast? = l.head? := by
  have h := List.head?_reverse l.reverse
  rw [List.reverse_reverse] at h
  exact h.symm

theorem okEnds_strip {s : Str} (h : strip s ≠ []) : okEnds (strip s) := by
  have hz : ((s.dropWhile isWS).reverse.dropWhile isWS) ≠ [] := by
    intro hz0
    apply h
    show ((s.dropWhile isWS).reverse.dropWhile isWS).reverse = []
    rw [hz0]; rfl
  constructor
  · intro c hc
    have hc1 : ((s.dropWhile isWS).reverse.dropWhile isWS).getLast? = some c := by
      rw [← List.head?_reverse]; exact hc
    rw [getLast?_dropWhile _ hz, getLast?_reverse_eq] at hc1
    exact head_dropWhile s c hc1
  · intro c hc
    have hc1 : ((s.dropWhile isWS).reverse.dropWhile isWS).head? = some c := by
      rw [← getLast?_reverse_eq]; exact hc
    exact head_dropWhile _ c hc1

theorem okEnds_append_space {t s : Str} (ht : okEnds t) (hs : okEnds s)
    (ht0 : t ≠ []) (hs0 : s ≠ []) : okEnds (t ++ ' ' :: s) := by
  constructor
  · intro c hc
    rw [head?_append_left _ _ ht0] at hc
    exact ht.1 c hc
  · intro c hc
    rw [getLast?_append_right t (' ' :: s) (by simp)] at hc
    cases s with
    | nil => exact absurd rfl hs0
    | cons y u =>
      rw [List.getLast?_cons_cons] at hc
      exact hs.2 c hc

theorem removeWS_ne_nil_of_strip {s : Str} (h : strip s ≠ []) : removeWS s ≠ [] := by
  rw [← removeWS_strip]
  cases hs : strip s with
  | nil => exact absurd hs h
  | cons c t =>
    have hc : isWS c = false := (okEnds_strip h).1 c (by rw [hs]; rfl)
    simp [removeWS, List.filter_cons, hc]

theorem strip_ne_nil_of_removeWS {s : Str} (h : removeWS s ≠ []) : strip s ≠ [] := by
  intro hs
  apply h
  rw [← removeWS_strip, hs]
  rfl

theorem fullTextOf_ne_nil {segs : List Segment} (h : ∃ s ∈ segs, strip s.text ≠ []) :
    WX.fullTextOf segs ≠ [] := by
  obtain ⟨s, hmem, hs⟩ := h
  obtain ⟨l₁, l₂, rfl⟩ := List.append_of_mem hmem
  apply strip_ne_nil_of_removeWS
  intro hnil
  rw [List.map_append, List.flatten_append, List.map_cons, List.flatten_cons] at hnil
  rw [removeWS_append, removeWS_append] at hnil
  rcases List.append_eq_nil.mp hnil with ⟨-, h2⟩
  rcases List.append_eq_nil.mp h2 with ⟨h3, -⟩
  rw [removeWS_append] at h3
  rcases List.append_eq_nil.mp h3 with ⟨h4, -⟩
  rw [removeWS_strip] at h4
  exact removeWS_ne_nil_of_strip hs h4

theorem textsLoop_full (sid cid : Option Str) :
    ∀ (segs : List Segment) (f s c : Str),
      (WX.textsLoop sid cid segs f s c).1
        = strip (f ++ (segs.map (fun sg => strip sg.text ++ [' '])).flatten) := by
  intro segs
  induction segs with
  | nil => intro f s c; simp [WX.textsLoop]
  | cons sg rest ih =>
    intro f s c
    simp only [WX.textsLoop]
    split
    · rw [ih]
      simp [List.append_assoc]
    · split
      · rw [ih]
        simp [List.append_assoc]
      · rw [ih]
        simp [List.append_assoc]

/-- C1, amended: in `transcribe_with_speaker_diarization`
(`whisperx_service.py`), a diarization failure after successful
transcription and alignment is non-fatal: the result has `success = true`,
no error, and `text` is the plain concatenation of the stripped segment
texts, non-empty when some segment has non-empty trimmed text.  (In
`transcribe_audio_with_diarization` of `transcription_service.py` a
diarization failure instead returns a failed result, see the
counterexample.) -/
theorem c1_theorem (env : WX.WEnv) (lang ms tok : Str) (segs0 segs : List Segment) (e : Str)
    (h1 : env.loadModel = .ok ()) (h2 : env.transcribe = .ok segs0)
    (h3 : env.align = .ok segs) (h4 : env.diarizeAssign = .error e)
    (h5 : ∃ s ∈ segs, strip s.text ≠ []) :
    (WX.transcribe_with_speaker_diarization env (some tok) lang ms).1.success = true ∧
    (WX.transcribe_with_speaker_diarization env (some tok) lang ms).1.text
      = WX.fullTextOf segs ∧
    (WX.transcribe_with_speaker_diarization env (some tok) lang ms).1.text ≠ [] ∧
    (WX.transcribe_with_speaker_diarization env (some tok) lang ms).1.error = none := by
  have htext : (WX.transcribe_with_speaker_diarization env (some tok) lang ms).1.text
      = WX.fullTextOf segs := by
    simp only [WX.transcribe_with_speaker_diarization, WX.innerW, h1, h2, h3, h4]
    rw [show (WX.SpeakersInfo.errorOnly (("Диаризация не удалась: ".toList) ++ e)).seller
          = none from rfl,
        show (WX.SpeakersInfo.errorOnly (("Диаризация не удалась: ".toList) ++ e)).client
          = none from rfl]
    rw [textsLoop_full]
    simp [WX.fullTextOf]
  refine ⟨?_, htext, ?_, ?_⟩
  · simp only [WX.transcribe_with_speaker_diarization, WX.innerW, h1, h2, h3, h4]
  · rw [htext]
    exact fullTextOf_ne_nil h5
  · simp only [WX.transcribe_with_speaker_diarization, WX.innerW, h1, h2, h3, h4]

/-- C1, witness: the amended statement at a concrete environment whose
diarization stage raises. -/
theorem c1_witness :
    (WX.transcribe_with_speaker_diarization envW1 (some ("t".toList)) ("ru".toList)
        ("s".toList)).1.success = true ∧
    (WX.transcribe_with_speaker_diarization envW1 (some ("t".toList)) ("ru".toList)
        ("s".toList)).1.text = WX.fullTextOf [segS1Hi] ∧
    (WX.transcribe_with_speaker_diarization envW1 (some ("t".toList)) ("ru".toList)
        ("s".toList)).1.text ≠ [] ∧
    (WX.transcribe_with_speaker_diarization envW1 (some ("t".toList)) ("ru".toList)
        ("s".toList)).1.error = none :=
  c1_theorem envW1 ("ru".toList) ("s".toList) ("t".toList) [segS1Hi] [segS1Hi]
    ("boom".toList) rfl rfl rfl rfl ⟨segS1Hi, by decide⟩

/-- C2, amended: in `transcribe_audio_with_diarization`
(`transcription_service.py`), an alignment failure after successful
transcription is non-fatal as the claim states: provided the diarization
call itself returns, the run succeeds and the whole result equals the
result of a run whose alignment returned the un-refined segments
unchanged.  (In `transcribe_with_speaker_diarization` of
`whisperx_service.py` an alignment failure is instead fatal, see the
counterexample.) -/
theorem c2_theorem (env : TS.TEnv) (lang : Str) (segs0 : List Segment) (a : Str) (b : Bool)
    (h1 : env.loadModel = .ok ()) (h1b : env.loadAudio = .ok ())
    (h2 : env.transcribe = .ok segs0) (h3 : env.align = .error a)
    (h4 : env.diarize = .ok b) :
    (TS.transcribe_audio_with_diarization env lang).1.success = true ∧
    TS.transcribe_audio_with_diarization env lang
      = TS.transcribe_audio_with_diarization { env with align := .ok segs0 } lang := by
  constructor
  · simp only [TS.transcribe_audio_with_diarization, TS.innerT, h1, h1b, h2, h3, h4]
    cases env.assign with
    | ok s => cases b <;> simp [TS.diarizedResult, TS.plainResult]
    | error e2 => cases b <;> simp [TS.diarizedResult, TS.plainResult]
  · simp only [TS.transcribe_audio_with_diarization, TS.innerT, h1, h1b, h2, h3, h4]

/-- C2, witness: the amended statement at a concrete environment whose
alignment stage raises. -/
theorem c2_witness :
    (TS.transcribe_audio_with_diarization envT2 ("ru".toList)).1.success = true ∧
    TS.transcribe_audio_with_diarization envT2 ("ru".toList)
      = TS.transcribe_audio_with_diarization { envT2 with align := .ok [segS1Hi] }
          ("ru".toList) :=
  c2_theorem envT2 ("ru".toList) [segS1Hi] ("align failed".toList) false rfl rfl rfl rfl rfl

/-- C3, amended: in `transcribe_with_speaker_diarization`
(`whisperx_service.py`) the two-run statement holds: for identical
transcription output, the `text` field after a mid-run diarization failure
equals the `text` of a run with diarization disabled (no HF token), and
both equal the plain concatenation of the stripped segment texts without
speaker labels.  (In `transcribe_audio_with_diarization` of
`transcription_service.py` the success-path `text` is instead the
`[speaker]:`-labeled rendering and a diarization failure empties it, see
the counterexample.) -/
theorem c3_theorem (env : WX.WEnv) (lang ms tok e : Str) (segs0 segs : List Segment)
    (h1 : env.loadModel = .ok ()) (h2 : env.transcribe = .ok segs0)
    (h3 : env.align = .ok segs) (h4 : env.diarizeAssign = .error e) :
    (WX.transcribe_with_speaker_diarization env (some tok) lang ms).1.text
      = (WX.transcribe_with_speaker_diarization env none lang ms).1.text ∧
    (WX.transcribe_with_speaker_diarization env (some tok) lang ms).1.text
      = WX.fullTextOf segs := by
  have hA : (WX.transcribe_with_speaker_diarization env (some tok) lang ms).1.text
      = WX.fullTextOf segs := by
    simp only [WX.transcribe_with_speaker_diarization, WX.innerW, h1, h2, h3, h4]
    rw [show (WX.SpeakersInfo.errorOnly (("Диаризация не удалась: ".toList) ++ e)).seller
          = none from rfl,
        show (WX.SpeakersInfo.errorOnly (("Диаризация не удалась: ".toList) ++ e)).client
          = none from rfl]
    rw [textsLoop_full]
    simp [WX.fullTextOf]
  have hB : (WX.transcribe_with_speaker_diarization env none lang ms).1.text
      = WX.fullTextOf segs := by
    simp only [WX.transcribe_with_speaker_diarization, WX.innerW, h1, h2, h3]
    rw [show (WX.SpeakersInfo.noteOnly
            ("Диаризация недоступна без HuggingFace токена".toList)).seller = none from rfl,
        show (WX.SpeakersInfo.noteOnly
            ("Диаризация недоступна без HuggingFace токена".toList)).client = none from rfl]
    rw [textsLoop_full]
    simp [WX.fullTextOf]
  exact ⟨hA.trans hB.symm, hA⟩

/-- C3, witness: the amended two-run statement at a concrete environment. -/
theorem c3_witness :
    (WX.transcribe_with_speaker_diarization envW1 (some ("t".toList)) ("ru".toList)
        ("s".toList)).1.text
      = (WX.transcribe_with_speaker_diarization envW1 none ("ru".toList)
          ("s".toList)).1.text ∧
    (WX.transcribe_with_speaker_diarization envW1 (some ("t".toList)) ("ru".toList)
        ("s".toList)).1.text = WX.fullTextOf [segS1Hi] :=
  c3_theorem envW1 ("ru".toList) ("s".toList) ("t".toList) ("boom".toList) [segS1Hi]
    [segS1Hi] rfl rfl rfl rfl

/-- C1, counterexample: in `transcribe_audio_with_diarization`
(`transcription_service.py`), a diarization failure after a successful
transcription yields `success = false` with empty text and
`step = "diarization"` — a top-level failed result, contrary to the claim. -/
theorem c1_counterexample :
    (TS.transcribe_audio_with_diarization envT1 ("ru".toList)).1.success = false ∧
    (TS.transcribe_audio_with_diarization envT1 ("ru".toList)).1.text = [] ∧
    (TS.transcribe_audio_with_diarization envT1 ("ru".toList)).1.step
      = some ("diarization".toList) := by
  decide

/-- C2, counterexample: in `transcribe_with_speaker_diarization`
(`whisperx_service.py`), an alignment failure after a successful
transcription propagates to the outer handler: `success = false`, empty
text — the alignment error is fatal there, contrary to the claim. -/
theorem c2_counterexample :
    (WX.transcribe_with_speaker_diarization envW2 (some ("t".toList)) ("ru".toList)
        ("s".toList)).1.success = false ∧
    (WX.transcribe_with_speaker_diarization envW2 (some ("t".toList)) ("ru".toList)
        ("s".toList)).1.text = [] ∧
    (WX.transcribe_with_speaker_diarization envW2 (some ("t".toList)) ("ru".toList)
        ("s".toList)).1.error = some ("align failed".toList) := by
  decide

/-- C3, counterexample: in `transcription_service.py`'s success-with-
diarization case, the `text` field is the speaker-labeled rendering
"[S]: Hi", not the plain concatenation "Hi" of the segment texts. -/
theorem c3_counterexample :
    (TS.transcribe_audio_with_diarization envT3 ("ru".toList)).1.success = true ∧
    (TS.transcribe_audio_with_diarization envT3 ("ru".toList)).1.text
      = ("[S]: Hi".toList) ∧
    ("[S]: Hi".toList : Str) ≠ ("Hi".toList) := by
  decide

/-- When every resolved role is the seller role, the dialogue loop never
flushes mid-stream and ends in a single seller-labeled line. -/
theorem fdLoop_const_seller :
    ∀ (segs : List Segment), (∀ s ∈ segs, s.speaker = none) →
      ∀ (ct : Str), ct ≠ [] → ∀ (lines : List Str),
      ∃ tail, WX.fdLoop none none segs (some WX.sellerRoleName) ct lines
        = lines ++ [WX.sellerRoleName ++ (": ".toList) ++ tail] := by
  intro segs
  induction segs with
  | nil =>
    intro _ ct hct lines
    refine ⟨strip ct, ?_⟩
    have hsp : WX.sellerRoleName ≠ [] := by decide
    simp [WX.fdLoop, hsp, hct]
  | cons s rest ih =>
    intro h ct hct lines
    have hs : s.speaker = none := h s (by simp)
    have hrest : ∀ x ∈ rest, x.speaker = none := fun x hx => h x (by simp [hx])
    by_cases htext : strip s.text = []
    · simp only [WX.fdLoop, htext, if_true]
      exact ih hrest ct hct lines
    · have hrole : WX.roleOf none none s.speaker = WX.sellerRoleName := by
        rw [hs]; simp [WX.roleOf]
      simp only [WX.fdLoop, htext, if_false, hrole]
      have hcond : ¬(WX.sellerRoleName ≠ [] ∧ WX.sellerRoleName ≠ WX.sellerRoleName
          ∧ ct ≠ []) := by
        intro hc
        exact hc.2.1 rfl
      simp only [hcond, if_false]
      exact ih hrest (ct ++ ' ' :: strip s.text) (by simp) lines

/-- Starting from the initial loop state, once some segment has non-empty
trimmed text and no segment carries a speaker id, the whole dialogue is a
single seller-labeled line. -/
theorem fdLoop_start_seller :
    ∀ (segs : List Segment), (∀ s ∈ segs, s.speaker = none) →
      (∃ s ∈ segs, strip s.text ≠ []) →
      ∃ tail, WX.fdLoop none none segs none [] []
        = [WX.sellerRoleName ++ (": ".toList) ++ tail] := by
  intro segs
  induction segs with
  | nil =>
    intro _ h5
    simp at h5
  | cons s rest ih =>
    intro h h5
    have hs : s.speaker = none := h s (by simp)
    have hrest : ∀ x ∈ rest, x.speaker = none := fun x hx => h x (by simp [hx])
    by_cases htext : strip s.text = []
    · have h5r : ∃ x ∈ rest, strip x.text ≠ [] := by
        rcases h5 with ⟨x, hx, hxs⟩
        rcases List.mem_cons.mp hx with rfl | hxr
        · exact absurd htext hxs
        · exact ⟨x, hxr, hxs⟩
      simp only [WX.fdLoop, htext, if_true]
      exact ih hrest h5r
    · have hrole : WX.roleOf none none s.speaker = WX.sellerRoleName := by
        rw [hs]; simp [WX.roleOf]
      simp only [WX.fdLoop, htext, if_false, hrole]
      have := fdLoop_const_seller rest hrest (' ' :: strip s.text) (by simp) []
      simpa using this

/-- Segments with no speaker key contribute nothing to the speaker
analysis, which then leaves `speakers_info` as the falsy empty dict. -/
theorem analyzeSpeakers_empty {sgs : List Segment} (h : ∀ s ∈ sgs, s.speaker = none) :
    WX.analyzeSpeakers sgs = WX.SpeakersInfo.empty := by
  have hfm : sgs.filterMap Segment.speaker = [] := by
    rw [List.filterMap_eq_nil_iff]
    exact h
  simp [WX.analyzeSpeakers, hfm, sortStrs]

/-- C4, amended: with diarization disabled (no HF token), `text` is still
the plain concatenation, but `format_dialogue` IS invoked and — because an
unset speaker id compares equal to the absent seller id — every segment
resolves to the seller role, so the `dialogue` field is the non-empty
single line "Продавец: …" whenever some segment has non-empty trimmed
text.  When diarization ran but supplied zero intervals (no segment
carries a speaker id), `speakers_info` stays the falsy empty dict and the
dialogue is empty as the claim says. -/
theorem c4_theorem (env : WX.WEnv) (lang ms : Str) (segs0 segs : List Segment)
    (h1 : env.loadModel = .ok ()) (h2 : env.transcribe = .ok segs0)
    (h3 : env.align = .ok segs)
    (h4 : ∀ s ∈ segs, s.speaker = none) (h5 : ∃ s ∈ segs, strip s.text ≠ []) :
    ((WX.transcribe_with_speaker_diarization env none lang ms).1.text
        = WX.fullTextOf segs ∧
     (WX.transcribe_with_speaker_diarization env none lang ms).1.text ≠ [] ∧
     ∃ tail, (WX.transcribe_with_speaker_diarization env none lang ms).1.dialogue
        = WX.sellerRoleName ++ (": ".toList) ++ tail) ∧
    (∀ (tok : Str) (sgs : List Segment), env.diarizeAssign = .ok sgs →
      (∀ s ∈ sgs, s.speaker = none) →
      (WX.transcribe_with_speaker_diarization env (some tok) lang ms).1.dialogue = []) := by
  have hsegs : segs ≠ [] := by
    rcases h5 with ⟨s, hmem, -⟩
    intro hnil
    rw [hnil] at hmem
    simp at hmem
  have htext : (WX.transcribe_with_speaker_diarization env none lang ms).1.text
      = WX.fullTextOf segs := by
    simp only [WX.transcribe_with_speaker_diarization, WX.innerW, h1, h2, h3]
    rw [show (WX.SpeakersInfo.noteOnly
            ("Диаризация недоступна без HuggingFace токена".toList)).seller = none from rfl,
        show (WX.SpeakersInfo.noteOnly
            ("Диаризация недоступна без HuggingFace токена".toList)).client = none from rfl]
    rw [textsLoop_full]
    simp [WX.fullTextOf]
  refine ⟨⟨htext, ?_, ?_⟩, ?_⟩
  · rw [htext]
    exact fullTextOf_ne_nil h5
  · simp only [WX.transcribe_with_speaker_diarization, WX.innerW, h1, h2, h3]
    have hguard : ¬(segs = [] ∨ WX.SpeakersInfo.noteOnly
        ("Диаризация недоступна без HuggingFace токена".toList) = WX.SpeakersInfo.empty) := by
      rintro (hg | hg)
      · exact hsegs hg
      · exact WX.SpeakersInfo.noConfusion hg
    simp only [WX.format_dialogue, hguard, if_false]
    rw [show (WX.SpeakersInfo.noteOnly
            ("Диаризация недоступна без HuggingFace токена".toList)).seller = none from rfl,
        show (WX.SpeakersInfo.noteOnly
            ("Диаризация недоступна без HuggingFace токена".toList)).client = none from rfl]
    obtain ⟨tail, htail⟩ := fdLoop_start_seller segs h4 h5
    refine ⟨tail, ?_⟩
    rw [htail]
    rfl
  · intro tok sgs hok hnone
    simp only [WX.transcribe_with_speaker_diarization, WX.innerW, h1, h2, h3, hok]
    simp [WX.format_dialogue, analyzeSpeakers_empty hnone]

/-- C4, witness: the amended statement at a concrete environment with one
unassigned "Hello" segment and diarization disabled. -/
theorem c4_witness :
    ((WX.transcribe_with_speaker_diarization envW4 none ("ru".toList)
        ("s".toList)).1.text = WX.fullTextOf [segHello] ∧
     (WX.transcribe_with_speaker_diarization envW4 none ("ru".toList)
        ("s".toList)).1.text ≠ [] ∧
     ∃ tail, (WX.transcribe_with_speaker_diarization envW4 none ("ru".toList)
        ("s".toList)).1.dialogue = WX.sellerRoleName ++ (": ".toList) ++ tail) ∧
    (∀ (tok : Str) (sgs : List Segment), envW4.diarizeAssign = .ok sgs →
      (∀ s ∈ sgs, s.speaker = none) →
      (WX.transcribe_with_speaker_diarization envW4 (some tok) ("ru".toList)
        ("s".toList)).1.dialogue = []) :=
  c4_theorem envW4 ("ru".toList) ("s".toList) [segHello] [segHello] rfl rfl rfl
    (by decide) ⟨segHello, by decide⟩

/-- C4, counterexample: with diarization disabled (no HF token) and no
segment carrying a speaker id, `format_dialogue` is still invoked and
produces the non-empty dialogue "Продавец: Hello" (the unset speaker
compares equal to the absent seller id), contrary to the claim that no
dialogue content is produced. -/
theorem c4_counterexample :
    (WX.transcribe_with_speaker_diarization envW4 none ("ru".toList)
        ("s".toList)).1.dialogue = ("Продавец: Hello".toList) ∧
    ("Продавец: Hello".toList : Str) ≠ [] := by
  decide

theorem lexLt_irrefl (a : Str) : lexLt a a = false := by
  induction a with
  | nil => rfl
  | cons c t ih => simp [lexLt, ih]

theorem lexLt_asymm : ∀ {a b : Str}, lexLt a b = true → lexLt b a = false := by
  intro a
  induction a with
  | nil =>
    intro b h
    cases b with
    | nil => simp [lexLt] at h
    | cons d s => rfl
  | cons c t ih =>
    intro b h
    cases b with
    | nil => simp [lexLt] at h
    | cons d s =>
      simp only [lexLt] at h ⊢
      rcases lt_trichotomy c d with hcd | hcd | hcd
      · simp [hcd, lt_asymm hcd]
      · subst hcd
        simp only [lt_irrefl, if_false] at h ⊢
        exact ih h
      · simp [hcd, lt_asymm hcd] at h

theorem lexLt_eq_of_not : ∀ {a b : Str}, lexLt a b = false → lexLt b a = false → a = b := by
  intro a
  induction a with
  | nil =>
    intro b h1 _
    cases b with
    | nil => rfl
    | cons d s => simp [lexLt] at h1
  | cons c t ih =>
    intro b h1 h2
    cases b with
    | nil => simp [lexLt] at h2
    | cons d s =>
      simp only [lexLt] at h1 h2
      rcases lt_trichotomy c d with hcd | hcd | hcd
      · simp [hcd] at h1
      · subst hcd
        simp only [lt_irrefl, if_false] at h1 h2
        rw [ih h1 h2]
      · simp [hcd] at h2

theorem lexLt_trans : ∀ {a b c : Str}, lexLt a b = true → lexLt b c = true →
    lexLt a c = true := by
  intro a
  induction a with
  | nil =>
    intro b c h1 h2
    cases c with
    | nil =>
      cases b with
      | nil => exact h1
      | cons y ys => simp [lexLt] at h2
    | cons z zs => rfl
  | cons x xs ih =>
    intro b c h1 h2
    cases b with
    | nil => simp [lexLt] at h1
    | cons y ys =>
      cases c with
      | nil => simp [lexLt] at h2
      | cons z zs =>
        simp only [lexLt] at h1 h2 ⊢
        rcases lt_trichotomy x y with hxy | hxy | hxy
        · rcases lt_trichotomy y z with hyz | hyz | hyz
          · simp [lt_trans hxy hyz]
          · subst hyz; simp [hxy]
          · simp [hyz, lt_asymm hyz] at h2
        · subst hxy
          simp only [lt_irrefl, if_false] at h1
          rcases lt_trichotomy x z with hxz | hxz | hxz
          · simp [hxz]
          · subst hxz
            simp only [lt_irrefl, if_false] at h2 ⊢
            exact ih h1 h2
          · simp [hxz, lt_asymm hxz] at h2
        · simp [hxy, lt_asymm hxy] at h1

instance : IsTotal Str strLe :=
  ⟨fun a b => by
    cases h : lexLt b a with
    | false => exact Or.inl h
    | true => exact Or.inr (lexLt_asymm h)⟩

instance : IsTrans Str strLe :=
  ⟨fun a b c hab hbc => by
    cases h : lexLt c a with
    | false => exact h
    | true =>
      exfalso
      cases hba : lexLt a b with
      | true =>
        have h2 := lexLt_trans h hba
        rw [hbc] at h2
        exact Bool.noConfusion h2
      | false =>
        have hab2 : a = b := lexLt_eq_of_not hba hab
        subst hab2
        have h3 : lexLt c a = false := hbc
        rw [h] at h3
        exact Bool.noConfusion h3⟩

theorem strLe_refl (a : Str) : strLe a a := lexLt_irrefl a

/-- C5, amended: the whisperx role resolver assigns roles from the
lexicographically sorted list of the distinct observed speaker ids — the
seller is the lexicographically least id and the client the next-least —
so role assignment is a total function of the distinct-id set alone, and
does NOT follow first-appearance chronology (see the counterexample). -/
theorem c5_theorem (segs : List Segment)
    (h : 2 ≤ ((observedIds segs).dedup).length) :
    ∃ s c, (WX.analyzeSpeakers segs).seller = some s ∧
      (WX.analyzeSpeakers segs).client = some c ∧
      s ∈ observedIds segs ∧ c ∈ observedIds segs ∧ s ≠ c ∧
      (∀ x ∈ observedIds segs, strLe s x) ∧
      (∀ x ∈ observedIds segs, x ≠ s → strLe c x) := by
  have hobs : segs.filterMap Segment.speaker = observedIds segs := rfl
  have hperm : (sortStrs ((observedIds segs).dedup)).Perm ((observedIds segs).dedup) :=
    List.perm_insertionSort strLe ((observedIds segs).dedup)
  have hsorted : List.Sorted strLe (sortStrs ((observedIds segs).dedup)) :=
    List.sorted_insertionSort strLe ((observedIds segs).dedup)
  have hnodup : (sortStrs ((observedIds segs).dedup)).Nodup :=
    (hperm.nodup_iff).mpr (List.nodup_dedup _)
  have hlen : 2 ≤ (sortStrs ((observedIds segs).dedup)).length := by
    rw [hperm.length_eq]
    exact h
  have hmemiff : ∀ z : Str, z ∈ sortStrs ((observedIds segs).dedup) ↔ z ∈ observedIds segs := by
    intro z
    rw [hperm.mem_iff, List.mem_dedup]
  rcases hsl : sortStrs ((observedIds segs).dedup) with _ | ⟨x, _ | ⟨y, rest⟩⟩
  · rw [hsl] at hlen
    simp at hlen
  · rw [hsl] at hlen
    simp at hlen
  · rw [hsl] at hsorted hnodup hmemiff
    have han : WX.analyzeSpeakers segs
        = WX.SpeakersInfo.roles x (some y) (x :: y :: rest).length (x :: y :: rest) none := by
      unfold WX.analyzeSpeakers
      rw [hobs, hsl]
    have hxmem : x ∈ observedIds segs := (hmemiff x).mp (by simp)
    have hymem : y ∈ observedIds segs := (hmemiff y).mp (by simp)
    have hsorted1 := List.sorted_cons.mp hsorted
    have hsorted2 := List.sorted_cons.mp hsorted1.2
    have hxy : x ≠ y := by
      intro hxy0
      rcases List.nodup_cons.mp hnodup with ⟨hxnot, -⟩
      exact hxnot (by rw [hxy0]; simp)
    refine ⟨x, y, ?_, ?_, hxmem, hymem, hxy, ?_, ?_⟩
    · rw [han]; rfl
    · rw [han]; rfl
    · intro z hz
      rcases List.mem_cons.mp ((hmemiff z).mpr hz) with rfl | hz2
      · exact strLe_refl z
      · exact hsorted1.1 z hz2
    · intro z hz hzx
      rcases List.mem_cons.mp ((hmemiff z).mpr hz) with rfl | hz2
      · exact absurd rfl hzx
      rcases List.mem_cons.mp hz2 with rfl | hz3
      · exact strLe_refl z
      · exact hsorted2.1 z hz3

/-- C5, witness: the amended statement at two segments whose distinct
speaker ids are "B" (first) and "A" (second). -/
theorem c5_witness :
    ∃ s c, (WX.analyzeSpeakers [segBfirst, segAsecond]).seller = some s ∧
      (WX.analyzeSpeakers [segBfirst, segAsecond]).client = some c ∧
      s ∈ observedIds [segBfirst, segAsecond] ∧ c ∈ observedIds [segBfirst, segAsecond] ∧
      s ≠ c ∧
      (∀ x ∈ observedIds [segBfirst, segAsecond], strLe s x) ∧
      (∀ x ∈ observedIds [segBfirst, segAsecond], x ≠ s → strLe c x) :=
  c5_theorem [segBfirst, segAsecond] (by decide)

/-- C5, counterexample: with speaker "B" speaking first and "A" second,
the code assigns the seller role to "A" — the lexicographically least id —
not to the id of the chronologically first segment ("B"). -/
theorem c5_counterexample :
    (WX.analyzeSpeakers [segBfirst, segAsecond]).seller = some ("A".toList) ∧
    [segBfirst, segAsecond].head?.bind Segment.speaker = some ("B".toList) ∧
    ("A".toList : Str) ≠ ("B".toList) := by
  decide

theorem concatTexts_append (a b : List TS.Utterance) :
    concatTexts (a ++ b) = concatTexts a ++ concatTexts b := by
  simp [concatTexts]

theorem flatten_filter_ne_nil (l : List Str) :
    ((l.filter (fun t => !t.isEmpty)).flatten) = l.flatten := by
  induction l with
  | nil => rfl
  | cons t rest ih =>
    cases t with
    | nil => simp [List.filter_cons, ih]
    | cons c u => simp [List.filter_cons, ih]

/-- Invariant of the merge loop: modulo whitespace, the texts of the
emitted utterances plus the pending accumulator always equal the texts
already consumed. -/
theorem mergeLoop_removeWS :
    ∀ (segs : List Segment) (cs : Option Str) (ct : Str) (ss se : Int)
      (acc : List TS.Utterance), (cs = none → ct = []) →
      removeWS (concatTexts (TS.mergeLoop segs cs ct ss se acc))
        = removeWS (concatTexts acc ++ ct
            ++ (segs.map (fun s => strip s.text)).flatten) := by
  intro segs
  induction segs with
  | nil =>
    intro cs ct ss se acc h
    cases cs with
    | none =>
      rw [h rfl]
      simp [TS.mergeLoop, TS.flushAcc]
    | some sp =>
      by_cases hct : ct = []
      · subst hct
        simp [TS.mergeLoop, TS.flushAcc]
      · simp only [TS.mergeLoop, TS.flushAcc, if_pos hct]
        rw [concatTexts_append]
        rw [show concatTexts [⟨sp, strip ct, ss, se⟩] = strip ct by simp [concatTexts]]
        simp [removeWS_append, removeWS_strip]
  | cons seg rest ih =>
    intro cs ct ss se acc h
    simp only [TS.mergeLoop]
    by_cases hs : some (seg.speaker.getD TS.unknownSpeaker) = cs
    · rw [if_pos hs]
      rw [ih cs (ct ++ ' ' :: strip seg.text) ss seg.stop acc
            (by intro hnone; rw [hnone] at hs; exact Option.noConfusion hs)]
      simp [List.map_cons, List.flatten_cons, removeWS_append, removeWS_space_cons,
        List.append_assoc]
    · rw [if_neg hs]
      rw [ih (some (seg.speaker.getD TS.unknownSpeaker)) (strip seg.text) seg.start
            seg.stop (TS.flushAcc cs ct ss se acc) (fun hnone => Option.noConfusion hnone)]
      cases cs with
      | none =>
        rw [h rfl]
        simp [TS.flushAcc, removeWS_append, List.append_assoc]
      | some sp =>
        by_cases hct : ct = []
        · subst hct
          simp [TS.flushAcc, removeWS_append, List.append_assoc]
        · simp only [TS.flushAcc, if_pos hct]
          rw [concatTexts_append]
          rw [show concatTexts [⟨sp, strip ct, ss, se⟩] = strip ct by simp [concatTexts]]
          simp [removeWS_append, removeWS_strip, List.append_assoc]

/-- C6: for every segment sequence with non-decreasing start times, the
Segment Merger's output partitions the non-empty input segments exactly:
concatenating all utterance texts (ignoring whitespace separators) equals
concatenating all non-empty trimmed segment texts in order — nothing
duplicated or dropped. -/
theorem c6_theorem (segs : List Segment) (h : startsMono segs = true) :
    removeWS (concatTexts (TS.mergeSegments segs))
      = removeWS (((segs.map (fun s => strip s.text)).filter
          (fun t => !t.isEmpty)).flatten) := by
  rw [flatten_filter_ne_nil]
  unfold TS.mergeSegments
  rw [mergeLoop_removeWS segs none [] 0 0 [] (fun _ => rfl)]
  simp [concatTexts]

/-- C6, witness: the partition property at the spec's Scenario A input. -/
theorem c6_witness :
    removeWS (concatTexts (TS.mergeSegments scenarioA))
      = removeWS (((scenarioA.map (fun s => strip s.text)).filter
          (fun t => !t.isEmpty)).flatten) :=
  c6_theorem scenarioA (by decide)

/-- C7, counterexample: the merger of `transcription_service.py` does not
skip an empty-trimmed segment: between two segments of speaker A, an
empty-text segment of speaker B breaks the same-speaker run (two
utterances instead of one), and an empty-text same-speaker segment
extends the utterance's end time to 5. -/
theorem c7_counterexample :
    TS.mergeSegments [segA1, segB0, segA2] ≠ TS.mergeSegments [segA1, segA2] ∧
    TS.mergeSegments [segA1, segA0w]
      = [{ speaker := ("A".toList), text := ("x".toList), start := 0, stop := 5 }] := by
  decide

/-- A segment whose trimmed text is empty is skipped by the dialogue loop
of `format_dialogue`, leaving the whole loop state untouched. -/
theorem fdLoop_skip (sid cid : Option Str) (seg : Segment) (h : strip seg.text = [])
    (rest : List Segment) (cs : Option Str) (ct : Str) (lines : List Str) :
    WX.fdLoop sid cid (seg :: rest) cs ct lines = WX.fdLoop sid cid rest cs ct lines := by
  simp [WX.fdLoop, h]

theorem fdLoop_insert_empty (sid cid : Option Str) (seg : Segment)
    (h : strip seg.text = []) :
    ∀ (xs ys : List Segment) (cs : Option Str) (ct : Str) (lines : List Str),
      WX.fdLoop sid cid (xs ++ seg :: ys) cs ct lines
        = WX.fdLoop sid cid (xs ++ ys) cs ct lines := by
  intro xs
  induction xs with
  | nil =>
    intro ys cs ct lines
    exact fdLoop_skip sid cid seg h ys cs ct lines
  | cons x xt ih =>
    intro ys cs ct lines
    simp only [List.cons_append, WX.fdLoop]
    split
    · exact ih ys cs ct lines
    · split
      · split
        · exact ih ys _ _ _
        · exact ih ys _ _ _
      · exact ih ys _ _ _

/-- C7, amended: in `format_dialogue` (`whisperx_service.py`) an
empty-trimmed segment is indeed skipped entirely — inserting one anywhere
never changes the dialogue.  (The merger of `transcription_service.py`
does NOT skip such segments: a different-speaker empty segment breaks a
same-speaker run and a same-speaker one extends the end time, see the
counterexample.) -/
theorem c7_theorem (xs ys : List Segment) (seg : Segment) (info : WX.SpeakersInfo)
    (h : strip seg.text = []) :
    WX.format_dialogue (xs ++ seg :: ys) info = WX.format_dialogue (xs ++ ys) info := by
  by_cases hinfo : info = WX.SpeakersInfo.empty
  · simp [WX.format_dialogue, hinfo]
  · by_cases hxys : xs ++ ys = []
    · rcases List.append_eq_nil.mp hxys with ⟨rfl, rfl⟩
      simp [WX.format_dialogue, hinfo, WX.fdLoop, h, WX.joinSep]
    · have hne1 : xs ++ seg :: ys ≠ [] := by
        intro h0
        rcases List.append_eq_nil.mp h0 with ⟨-, h1⟩
        exact List.noConfusion h1
      simp only [WX.format_dialogue]
      rw [if_neg (by rintro (hg | hg); exacts [hne1 hg, hinfo hg]),
          if_neg (by rintro (hg | hg); exacts [hxys hg, hinfo hg])]
      rw [fdLoop_insert_empty _ _ seg h xs ys]

/-- C7, witness: inserting an empty-text segment of speaker B between the
two speaker-A segments leaves the dialogue unchanged. -/
theorem c7_witness :
    WX.format_dialogue ([segA1] ++ segB0 :: [segA2]) (WX.SpeakersInfo.noteOnly ("n".toList))
      = WX.format_dialogue ([segA1] ++ [segA2]) (WX.SpeakersInfo.noteOnly ("n".toList)) :=
  c7_theorem [segA1] [segA2] segB0 (WX.SpeakersInfo.noteOnly ("n".toList)) (by decide)

theorem goodTexts_append_one {acc : List TS.Utterance} {u : TS.Utterance}
    (h : GoodTexts acc) (hu : u.text ≠ [] ∧ okEnds u.text) : GoodTexts (acc ++ [u]) := by
  intro v hv
  rcases List.mem_append.mp hv with hv1 | hv2
  · exact h v hv1
  · rw [List.mem_singleton] at hv2
    subst hv2
    exact hu

theorem adjDiff_append_one (acc : List TS.Utterance) (u : TS.Utterance)
    (h : AdjDiff acc) (hl : ∀ v, acc.getLast? = some v → v.speaker ≠ u.speaker) :
    AdjDiff (acc ++ [u]) := by
  induction acc with
  | nil => exact trivial
  | cons v rest ih =>
    cases rest with
    | nil => exact ⟨hl v rfl, trivial⟩
    | cons w rt =>
      refine ⟨h.1, ih h.2 ?_⟩
      intro z hz
      apply hl
      rw [List.getLast?_cons_cons]
      exact hz

/-- On input segments whose trimmed texts are all non-empty, the merge
loop's output has non-empty fixed-point texts and pairwise distinct
adjacent speakers. -/
theorem mergeLoop_good :
    ∀ (segs : List Segment) (cs : Option Str) (ct : Str) (ss se : Int)
      (acc : List TS.Utterance),
      (∀ s ∈ segs, strip s.text ≠ []) → GoodTexts acc → AdjDiff acc →
      mergeInv cs ct acc →
      GoodTexts (TS.mergeLoop segs cs ct ss se acc) ∧
      AdjDiff (TS.mergeLoop segs cs ct ss se acc) := by
  intro segs
  induction segs with
  | nil =>
    intro cs ct ss se acc hsegs hgood hadj hinv
    cases cs with
    | none =>
      simp only [TS.mergeLoop, TS.flushAcc]
      exact ⟨hgood, hadj⟩
    | some sp =>
      obtain ⟨hct, hends, hlast⟩ := hinv
      simp only [TS.mergeLoop, TS.flushAcc, if_pos hct]
      constructor
      · refine goodTexts_append_one hgood ⟨?_, ?_⟩
        · rw [strip_eq_self_of_okEnds hends]
          exact hct
        · rw [strip_eq_self_of_okEnds hends]
          exact hends
      · exact adjDiff_append_one acc _ hadj (fun v hv => hlast v hv)
  | cons seg rest ih =>
    intro cs ct ss se acc hsegs hgood hadj hinv
    have hseg : strip seg.text ≠ [] := hsegs seg (by simp)
    have hrest : ∀ s ∈ rest, strip s.text ≠ [] := fun s hs => hsegs s (by simp [hs])
    simp only [TS.mergeLoop]
    by_cases hs : some (seg.speaker.getD TS.unknownSpeaker) = cs
    · rw [if_pos hs]
      apply ih _ _ _ _ _ hrest hgood hadj
      rcases cs with _ | sp
      · exact Option.noConfusion hs
      obtain ⟨hct, hends, hlast⟩ := hinv
      exact ⟨by simp, okEnds_append_space hends (okEnds_strip hseg) hct hseg, hlast⟩
    · rw [if_neg hs]
      rcases cs with _ | sp
      · obtain ⟨hct, hacc⟩ := hinv
        subst hct
        subst hacc
        apply ih _ _ _ _ _ hrest
        · intro u hu
          simp [TS.flushAcc] at hu
        · simp [TS.flushAcc, AdjDiff]
        · refine ⟨hseg, okEnds_strip hseg, ?_⟩
          intro v hv
          simp [TS.flushAcc] at hv
      · obtain ⟨hct, hends, hlast⟩ := hinv
        have hflush : TS.flushAcc (some sp) ct ss se acc
            = acc ++ [⟨sp, strip ct, ss, se⟩] := by
          simp [TS.flushAcc, hct]
        apply ih _ _ _ _ _ hrest
        · rw [hflush]
          refine goodTexts_append_one hgood ⟨?_, ?_⟩
          · rw [strip_eq_self_of_okEnds hends]
            exact hct
          · rw [strip_eq_self_of_okEnds hends]
            exact hends
        · rw [hflush]
          exact adjDiff_append_one acc _ hadj (fun v hv => hlast v hv)
        · refine ⟨hseg, okEnds_strip hseg, ?_⟩
          intro v hv
          rw [hflush, List.getLast?_concat] at hv
          injection hv with hv
          have hvs : v.speaker = sp := by rw [← hv]
          rw [hvs]
          intro heq
          apply hs
          rw [heq]

/-- Re-merging a list of utterances with non-empty fixed-point texts and
distinct adjacent speakers reproduces it unchanged. -/
theorem mergeLoop_remerge :
    ∀ (us : List TS.Utterance) (u : TS.Utterance) (acc : List TS.Utterance),
      GoodTexts (u :: us) → AdjDiff (u :: us) →
      TS.mergeLoop (us.map uttSeg) (some u.speaker) u.text u.start u.stop acc
        = acc ++ u :: us := by
  intro us
  induction us with
  | nil =>
    intro u acc hgood hadj
    obtain ⟨hne, hends⟩ := hgood u (by simp)
    simp only [List.map_nil, TS.mergeLoop, TS.flushAcc, if_pos hne]
    rw [strip_eq_self_of_okEnds hends]
  | cons v vs ih =>
    intro u acc hgood hadj
    have hvgood := hgood v (by simp)
    have hune : u.text ≠ [] := (hgood u (by simp)).1
    have huends := (hgood u (by simp)).2
    simp only [List.map_cons, TS.mergeLoop]
    have hneq : ¬ some ((uttSeg v).speaker.getD TS.unknownSpeaker) = some u.speaker := by
      intro h0
      injection h0 with h0
      exact hadj.1 h0.symm
    rw [if_neg hneq]
    have hflush : TS.flushAcc (some u.speaker) u.text u.start u.stop acc
        = acc ++ [⟨u.speaker, strip u.text, u.start, u.stop⟩] := by
      simp [TS.flushAcc, hune]
    rw [hflush, strip_eq_self_of_okEnds huends]
    have htext : strip (uttSeg v).text = v.text := strip_eq_self_of_okEnds hvgood.2
    rw [show (uttSeg v).speaker.getD TS.unknownSpeaker = v.speaker from rfl, htext,
        show (uttSeg v).start = v.start from rfl, show (uttSeg v).stop = v.stop from rfl]
    have hrec := ih v
      (acc ++ [({ speaker := u.speaker, text := u.text, start := u.start,
                  stop := u.stop } : TS.Utterance)])
      (fun w hw => hgood w (List.mem_cons_of_mem u hw)) hadj.2
    refine hrec.trans ?_
    rw [List.append_assoc]
    rfl

/-- C8, amended: the Segment Merger of `transcription_service.py` is
idempotent on every segment sequence whose trimmed texts are all
non-empty (running it on its own output, each utterance read back as a
single-speaker segment, reproduces the output).  On sequences containing
an empty-trimmed segment, idempotence fails, see the counterexample. -/
theorem c8_theorem (segs : List Segment) (h : ∀ s ∈ segs, strip s.text ≠ []) :
    TS.mergeSegments ((TS.mergeSegments segs).map uttSeg) = TS.mergeSegments segs := by
  obtain ⟨hgood, hadj⟩ := mergeLoop_good segs none [] 0 0 [] h
    (fun u hu => absurd hu (List.not_mem_nil u)) trivial ⟨rfl, rfl⟩
  have hgood2 : GoodTexts (TS.mergeSegments segs) := hgood
  have hadj2 : AdjDiff (TS.mergeSegments segs) := hadj
  cases hus : TS.mergeSegments segs with
  | nil => rfl
  | cons u us =>
    rw [hus] at hgood2 hadj2
    obtain ⟨hune, huends⟩ := hgood2 u (by simp)
    simp only [List.map_cons, TS.mergeSegments, TS.mergeLoop]
    rw [if_neg (by simp)]
    have htext : strip (uttSeg u).text = u.text := strip_eq_self_of_okEnds huends
    rw [show (uttSeg u).speaker.getD TS.unknownSpeaker = u.speaker from rfl, htext,
        show (uttSeg u).start = u.start from rfl, show (uttSeg u).stop = u.stop from rfl]
    rw [show TS.flushAcc none [] 0 0 [] = [] from rfl]
    exact mergeLoop_remerge us u [] hgood2 hadj2

/-- C8, witness: idempotence at a two-segment input with non-empty
texts. -/
theorem c8_witness :
    TS.mergeSegments ((TS.mergeSegments [segA1, segA2]).map uttSeg)
      = TS.mergeSegments [segA1, segA2] :=
  c8_theorem [segA1, segA2] (by decide)

/-- C8, counterexample: applying the Segment Merger of
`transcription_service.py` to its own output differs from applying it
once — the empty-text segment of speaker B splits speaker A's run into
two adjacent utterances, which the second application merges. -/
theorem c8_counterexample :
    TS.mergeSegments ((TS.mergeSegments [segA1, segB0, segA2]).map uttSeg)
      ≠ TS.mergeSegments [segA1, segB0, segA2] := by
  decide

/-- C9: on every path of both pipelines — success, degraded result, the
early diarization-failure return, and a propagating exception from any
stage — the created temp file has been unlinked when the function
returns. -/
theorem c9_temp_file_removed :
    (∀ (env : TS.TEnv) (lang : Str),
      (TS.transcribe_audio_with_diarization env lang).2.tempCreated = true ∧
      (TS.transcribe_audio_with_diarization env lang).2.tempExists = false) ∧
    (∀ (env : WX.WEnv) (tok : Option Str) (lang ms : Str),
      (WX.transcribe_with_speaker_diarization env tok lang ms).2.tempCreated = true ∧
      (WX.transcribe_with_speaker_diarization env tok lang ms).2.tempExists = false) := by
  constructor
  · intro env lang
    cases h : TS.innerT env lang <;>
      simp [TS.transcribe_audio_with_diarization, FS.unlink, h]
  · intro env tok lang ms
    cases h : WX.innerW env tok lang ms <;>
      simp [WX.transcribe_with_speaker_diarization, FS.unlink, h]

/-- C10: `transcribe_audio` returns exactly the result of
`transcribe_audio_with_diarization` on the same arguments (it is a direct
delegation in the source). -/
theorem c10_backward_compat :
    ∀ (env : TS.TEnv) (lang : Str),
      TS.transcribe_audio env lang = TS.transcribe_audio_with_diarization env lang :=
  fun _ _ => rfl
